import Mathlib

/-!
Verification of the Jack-to-VM compiler core (projects/10 of the repository):
`symbol_table.py`, `tokenizer.py`, `jack_compiler.py`, `vm_writer.py`,
`jack_types.py`.  Every definition below is a shallow embedding of the
corresponding Python code; source locations are cited inline.  Python dicts
are modelled as insertion-ordered association lists (overwriting a key keeps
its position), exceptions as `Option`/`none`, and the VM instruction text
stream as a list of `Instr` values (comment lines emitted by
`VMWriter.write_comment` carry no instruction and are not modelled).

One cross-module fact of the source matters throughout and is recorded here
once: `jack_compiler.py` performs `from jack_types import *` followed by
`from vm_writer import *`, so inside `jack_compiler.py` the name `Operator`
denotes `vm_writer.Operator`, while the AST nodes built by `jack_parser.py`
(whose own star-import order makes `Operator` denote `jack_types.Operator`)
hold `jack_types.Operator` members.  The two classes are distinct Python
classes, hence `isinstance(x, Operator)` in `jack_compiler.py` is `False`
for every operator stored in a parsed AST.  Moreover in `vm_writer.Operator`
the members `Sub = "-"` and `Neg = "-"` have equal values, so `Neg` is an
enum alias of `Sub` (its `.name` is `"Sub"`).  Both facts are reflected at
the exact places they strike, with comments.
-/

namespace Jack

/-- Storage class of a symbol; `symbol_table.py:8-25` (`class Kind`). -/
inductive Kind where
  | Static
  | Field
  | Arg
  | Var
deriving DecidableEq, Repr

/-- An entry of the symbol table; `symbol_table.py:28-36` (`class Symbol`,
a frozen dataclass `name/type/kind/index`). -/
structure Symbol where
  name : String
  type : String
  kind : Kind
  index : Nat
deriving DecidableEq, Repr

/-- Lookup in an insertion-ordered association list modelling a Python
`dict`: first (unique) binding of the key. -/
def dget {α : Type} : List (String × α) → String → Option α
  | [], _ => none
  | (k', v) :: rest, k => if k' = k then some v else dget rest k

/-- Update of an insertion-ordered association list modelling Python
`d[k] = v`: an existing binding is overwritten in place, a new key is
appended at the end. -/
def dput {α : Type} : List (String × α) → String → α → List (String × α)
  | [], k, v => [(k, v)]
  | (k', v') :: rest, k, v =>
      if k' = k then (k, v) :: rest else (k', v') :: dput rest k v

/-- The two-scope symbol table; `symbol_table.py:39-46`: a class-scope dict
`__class_table` and a subroutine-scope dict `__func_table`, both mapping a
name to a `Symbol`. -/
structure SymbolTable where
  class_table : List (String × Symbol)
  func_table : List (String × Symbol)
deriving DecidableEq, Repr

/-- The freshly constructed table (`SymbolTable.__init__`,
`symbol_table.py:44-46`): both scopes empty. -/
def SymbolTable.empty : SymbolTable := ⟨[], []⟩

/-- `SymbolTable.start_subroutine` (`symbol_table.py:48-50`): clears the
subroutine scope, class scope untouched. -/
def SymbolTable.start_subroutine (t : SymbolTable) : SymbolTable :=
  { t with func_table := [] }

/-- `SymbolTable.__get_table_for_kind` (`symbol_table.py:52-55`): `Var` and
`Arg` live in the subroutine scope, everything else (`Static`, `Field`) in
the class scope.  `true` here means the subroutine scope. -/
def Kind.isFuncScope : Kind → Bool
  | .Var => true
  | .Arg => true
  | _ => false

/-- The dict selected by `__get_table_for_kind` for a given kind. -/
def SymbolTable.tableForKind (t : SymbolTable) (k : Kind) :
    List (String × Symbol) :=
  if k.isFuncScope then t.func_table else t.class_table

/-- `SymbolTable.__getitem__` (`symbol_table.py:57-64`): subroutine scope
first, then class scope, `none` when absent. -/
def SymbolTable.getItem (t : SymbolTable) (item : String) : Option Symbol :=
  match dget t.func_table item with
  | some s => some s
  | none => dget t.class_table item

/-- `SymbolTable.var_count` (`symbol_table.py:72-75`): the number of symbols
of the given kind in the dict appropriate to that kind. -/
def SymbolTable.var_count (t : SymbolTable) (k : Kind) : Nat :=
  (t.tableForKind k).countP (fun e => e.2.kind = k)

/-- `SymbolTable.define` (`symbol_table.py:66-70`).  Note the source has no
duplicate check of any kind: it computes `index = var_count(kind)`, builds
the symbol and stores it with `table[name] = symbol`, silently overwriting
any existing binding of `name` in that scope.  No exception can be raised,
so the embedding is total. -/
def SymbolTable.define (t : SymbolTable) (name sym_type : String)
    (kind : Kind) : SymbolTable :=
  let symbol : Symbol := ⟨name, sym_type, kind, t.var_count kind⟩
  if kind.isFuncScope then
    { t with func_table := dput t.func_table name symbol }
  else
    { t with class_table := dput t.class_table name symbol }

/-- VM memory segment; `vm_writer.py:11-19` (`class Segment`). -/
inductive Segment where
  | Const
  | Arg
  | Local
  | Static
  | This
  | That
  | Pointer
  | Temp
deriving DecidableEq, Repr

/-- `Segment.from_kind` (`vm_writer.py:21-35`): the segment storing a symbol
of the given kind.  All four kinds are covered, so no error case arises. -/
def Segment.fromKind : Kind → Segment
  | .Var => .Local
  | .Arg => .Arg
  | .Static => .Static
  | .Field => .This

/-- The AST operator enum `jack_types.Operator` (`jack_types.py:322-338`).
Unlike `vm_writer.Operator`, all eleven members have pairwise distinct
values there, so none is an alias and each keeps its own `.name`. -/
inductive Operator where
  | Add
  | Sub
  | Neg
  | Eq
  | Gt
  | Lt
  | And
  | Or
  | Not
  | Mul
  | Div
deriving DecidableEq, Repr

/-- `Operator.num_args` (`jack_types.py:343-348` and identically
`vm_writer.py:54-59`): 1 for `Neg`/`Not`, 2 otherwise. -/
def Operator.numArgs : Operator → Nat
  | .Neg => 1
  | .Not => 1
  | _ => 2

/-- One line of the emitted VM instruction stream (`vm_writer.py` write
methods; §6 of the textual output contract).  `arith op` stands for the
line `op.name.lower()` emitted by `write_arithmetic` for a non-OS operator
(`vm_writer.py:159-166`); `Mul`/`Div` never occur under `arith` because
`write_arithmetic` turns them into `call` lines. -/
inductive Instr where
  | push (segment : Segment) (num : Nat)
  | pop (segment : Segment) (num : Nat)
  | arith (op : Operator)
  | label (name : String)
  | goto (name : String)
  | ifGoto (name : String)
  | call (func : String) (numArgs : Nat)
  | function (func : String) (numLocals : Nat)
  | ret
deriving DecidableEq, Repr

/-- `VMWriter.write_arithmetic` (`vm_writer.py:159-166`): the operators in
`OPERATOR_TO_OS_CALL` (`vm_writer.py:81-84`) become `call` instructions to
the OS routines; the membership test succeeds exactly for `Mul` and `Div`
(for both operator enums: equal member values `"*"`, `"/"` and equal member
names, see the header note).  Every other operator becomes the line
`operator.name.lower()`. -/
def writeArithmetic : Operator → Instr
  | .Mul => .call "Math.multiply" 2
  | .Div => .call "Math.divide" 2
  | op => .arith op

/-- `VMWriter.write_push_symbol` (`vm_writer.py:219-226`): push from the
segment of the symbol's kind at the symbol's index. -/
def writePushSymbol (s : Symbol) : List Instr :=
  [.push (Segment.fromKind s.kind) s.index]

/-- Modelled from the spec: `VMWriter.write_pop_to_symbol` is invoked at
`jack_compiler.py:224` (plain `let` assignment) but its definition is
absent from the sources under `src/`; spec §4.4.4 says a plain `let` must
"store the top of stack directly into the target's resolved storage slot",
which with the segment mapping of §4.4/`Segment.from_kind` is a single
`pop` to the symbol's segment and index. -/
def writePopSymbol (s : Symbol) : List Instr :=
  [.pop (Segment.fromKind s.kind) s.index]

/-- Modelled from the spec: `VMWriter.write_push_string` is invoked at
`jack_compiler.py:318` (string-literal term) but its definition is absent
from the sources under `src/`; spec §4.4.6 says string literals "expand
into a `new string of length N` call followed by one `append character`
call per character", and §6 names the reserved routines `String.new` and
`String.appendChar`.  `String.new` takes the length (1 argument) and each
`String.appendChar` call takes the string and the character code
(2 arguments), leaving the string on the stack. -/
def writePushString (s : String) : List Instr :=
  .push .Const s.length :: .call "String.new" 1 ::
    s.data.flatMap (fun c => [.push .Const c.toNat, .call "String.appendChar" 2])

/-- Net operand-stack effect of one instruction: `push` adds one value,
`pop` removes one, an arithmetic line consumes `num_args` operands and
pushes one result, `call f n` consumes the `n` pushed arguments and pushes
the callee's single return value (the VM calling convention of §6/§4.4.3),
`if-goto` consumes the tested value, and `label`/`goto`/`function`/`return`
do not change the caller-visible operand count. -/
def instrEffect : Instr → Int
  | .push _ _ => 1
  | .pop _ _ => -1
  | .arith op => 1 - (op.numArgs : Int)
  | .label _ => 0
  | .goto _ => 0
  | .ifGoto _ => -1
  | .call _ n => 1 - (n : Int)
  | .function _ _ => 0
  | .ret => 0

/-- Net operand-stack effect of an instruction sequence. -/
def stackEffect (l : List Instr) : Int :=
  (l.map instrEffect).sum

mutual
/-- AST term (`jack_types.py:204-310`): the closed set of `Term` subclasses
built by `jack_parser.py`.  Operators stored in the AST are
`jack_types.Operator` members. -/
inductive Term where
  | IntegerConstant (value : Nat)
  | StringConstant (value : String)
  | KeywordConstant (value : String)
  | Identifier (name : String)
  | ArrayIndexer (array_var : String) (index_expr : Expression)
  | UnaryOp (operator : Operator) (term : Term)
  | Parentheses (expr : Expression)
  | Call (call : SubroutineCall)

/-- `jack_types.Expression` (`jack_types.py:313-319`): a list of elements,
each an operator or a term, as built by `JackParser.parse_expression`
(`jack_parser.py:329-339`: a first term then `(operator, term)` pairs). -/
inductive Expression where
  | mk (elements : List (Sum Operator Term))

/-- A freshly parsed `jack_types.SubroutineCall` (`jack_types.py:267-310`):
the parser fills only `subroutine_class_or_self`, `subroutine_name` and
`arguments` (`jack_parser.py:235-269`); the analysis fields
`subroutine_class`/`subroutine_this`/`call_type` start as `None` and are
computed by `JackCompiler.__analyze_subroutine_call`, embedded below as a
pure function of the same inputs. -/
inductive SubroutineCall where
  | mk (subroutine_class_or_self : Option String) (subroutine_name : String)
       (arguments : List Expression)
end

/-- `JackCompiler.compile_keyword_constant` (`jack_compiler.py:324-332`):
`this` pushes the current receiver; otherwise `KEYWORD_TO_CONST`
(`jack_compiler.py:264-268`: null 0, true -1, false 0) is consulted (a
missing key would raise `KeyError`, hence `none`), `abs` of the value is
pushed, and for a negative value (`true` only) `write_arithmetic(
Operator.Neg)` is emitted.  In `jack_compiler.py` the name `Operator` is
`vm_writer.Operator`, whose member `Neg = "-"` duplicates `Sub = "-"` and
is therefore an enum alias of `Sub`: the emitted line is
`Operator.Sub.name.lower() = "sub"`, not `"neg"`. -/
def compileKeywordConstant (value : String) : Option (List Instr) :=
  if value = "this" then some [.push .Pointer 0]
  else if value = "null" then some [.push .Const 0]
  else if value = "true" then some [.push .Const 1, .arith .Sub]
  else if value = "false" then some [.push .Const 0]
  else none

mutual
/-- `JackCompiler.compile_term` (`jack_compiler.py:298-322`), with the class
name `cn` standing for `self.__class.class_name` and `st` for the symbol
table.  Unresolved identifiers raise `ValueError`, hence `none`. -/
def compileTerm (cn : String) (st : SymbolTable) : Term → Option (List Instr)
  | .Parentheses e => compileExpression cn st e
  | .UnaryOp op t =>
      (compileTerm cn st t).map (fun c => c ++ [writeArithmetic op])
  | .IntegerConstant v => some [.push .Const v]
  | .KeywordConstant v => compileKeywordConstant v
  | .Identifier n =>
      match st.getItem n with
      | some sym => some (writePushSymbol sym)
      | none => none
  | .ArrayIndexer array_var index_expr =>
      -- compile_array_index_term (jack_compiler.py:334-344), inlined here
      -- from its single call site at :315-316: resolve the array symbol
      -- (else ValueError), compile the index expression, push the base,
      -- add (the literal Operator.Add there is vm_writer.Operator.Add,
      -- line "add"), anchor pointer 1, push through that 0.
      match st.getItem array_var with
      | none => none
      | some sym =>
          match compileExpression cn st index_expr with
          | none => none
          | some idx =>
              some (idx ++ writePushSymbol sym ++
                [.arith .Add, .pop .Pointer 1, .push .That 0])
  | .StringConstant v => some (writePushString v)
  | .Call c => compileSubroutineCall cn st c

/-- `JackCompiler.compile_expression` (`jack_compiler.py:270-296`) on a
parsed `Expression`.  A single-element list holding a term is dispatched to
`compile_term` (the recursive call at `:281` re-enters `compile_expression`
whose `isinstance(expr, Term)` test at `:276` succeeds); a single-element
list holding an operator fails (`Operator` has no `elements` attribute, so
`:280` raises `AttributeError`).  For every longer list the branch guard at
`:283` is `len >= 3 and isinstance(expr.elements[1], Operator)` where
`Operator` is `vm_writer.Operator` (see the header note) while a parsed
AST stores `jack_types.Operator` members, so the `isinstance` test is
`False` for every parser-built expression and control falls through to the
`raise ValueError("Impossible, all other scenarios were handled")` at
`:296`; a two-element list reaches the same raise.  Hence: `none` for every
list that is not a one-term list. -/
def compileExpression (cn : String) (st : SymbolTable) :
    Expression → Option (List Instr)
  | .mk [Sum.inr t] => compileTerm cn st t
  | .mk _ => none

/-- `JackCompiler.compile_subroutine_call` (`jack_compiler.py:236-262`)
composed with `__analyze_subroutine_call` (`jack_compiler.py:93-117`) on a
freshly parsed call (`subroutine_class` is `None`, so analysis runs).
No prefix: method call on the current object - class is `cn`, receiver is
`KeywordConstant("this")`, compiled as `push pointer 0`.  A prefix that
resolves in the table: method call - class is the symbol's type, receiver
is `Identifier(symbol.name)`, compiled by looking the name up again
(asserted non-`None` at `:253`) and pushing that symbol.  Unresolved
prefix: static call on class `prefix`, no receiver.  `num_args` is the
argument count plus one exactly when a receiver is pushed (`:242-246`), and
the `call` uses `canonical_name = class + "." + name`
(`jack_types.py:296-303`). -/
def compileSubroutineCall (cn : String) (st : SymbolTable) :
    SubroutineCall → Option (List Instr)
  | .mk none nm args =>
      match compileExpressionList cn st args with
      | none => none
      | some argsCode =>
          some (.push .Pointer 0 :: argsCode ++
            [.call (cn ++ "." ++ nm) (args.length + 1)])
  | .mk (some p) nm args =>
      match st.getItem p with
      | some sym =>
          match st.getItem sym.name with
          | none => none
          | some sym2 =>
              match compileExpressionList cn st args with
              | none => none
              | some argsCode =>
                  some (writePushSymbol sym2 ++ argsCode ++
                    [.call (sym.type ++ "." ++ nm) (args.length + 1)])
      | none =>
          match compileExpressionList cn st args with
          | none => none
          | some argsCode =>
              some (argsCode ++ [.call (p ++ "." ++ nm) args.length])

/-- The loop `for arg in call.arguments: self.compile_expression(arg)` at
`jack_compiler.py:259-260`: each argument expression in order, first
failure aborts. -/
def compileExpressionList (cn : String) (st : SymbolTable) :
    List Expression → Option (List Instr)
  | [] => some []
  | e :: rest =>
      match compileExpression cn st e with
      | none => none
      | some c =>
          match compileExpressionList cn st rest with
          | none => none
          | some cs => some (c ++ cs)
end

/-- The statement variants (`jack_types.py:146-201`) as built by
`jack_parser.py:201-327`. -/
inductive Statement where
  | LetStatement (var_name : String) (arr_setter_expr : Option Expression)
      (assignment : Expression)
  | IfStatement (condition : Expression) (if_body : List Statement)
      (else_body : Option (List Statement))
  | WhileStatement (condition : Expression) (body : List Statement)
  | DoStatement (call : SubroutineCall)
  | ReturnStatement (return_expr : Option Expression)

/-- The per-subroutine label counter dict `self.__label_count`
(`jack_compiler.py:18`), mapping a label prefix to the next index. -/
abbrev LabelState := List (String × Nat)

/-- `JackCompiler.gen_label` (`jack_compiler.py:20-24`): read the counter of
the prefix (0 when absent), return `f"{prefix}{label_ix}"` and bump the
counter. -/
def genLabel (lc : LabelState) (pfx : String) : String × LabelState :=
  let labelIx := (dget lc pfx).getD 0
  (pfx ++ toString labelIx, dput lc pfx (labelIx + 1))

mutual
/-- `JackCompiler.compile_statement` (`jack_compiler.py:133-147`) dispatch
over the five statement compilers (`jack_compiler.py:149-234`), threading
the label-counter dict.  `__debug_comment_operation` emits only comment
lines, which carry no instruction. -/
def compileStatement (cn : String) (st : SymbolTable) (lc : LabelState) :
    Statement → Option (List Instr × LabelState)
  | .LetStatement var_name arr_setter_expr assignment =>
      -- compile_let_statement, jack_compiler.py:199-224: resolve the
      -- assignee (else ValueError); with an index expression emit index
      -- code, push base, add, value code, pop temp 0, pop pointer 1,
      -- push temp 0, pop that 0; without one emit value code then the
      -- pop to the assignee's slot.
      match st.getItem var_name with
      | none => none
      | some assignee =>
          match arr_setter_expr with
          | some idxE =>
              match compileExpression cn st idxE with
              | none => none
              | some idx =>
                  match compileExpression cn st assignment with
                  | none => none
                  | some value =>
                      some (idx ++ writePushSymbol assignee ++
                        [.arith .Add] ++ value ++
                        [.pop .Temp 0, .pop .Pointer 1, .push .Temp 0,
                         .pop .That 0], lc)
          | none =>
              match compileExpression cn st assignment with
              | none => none
              | some value => some (value ++ writePopSymbol assignee, lc)
  | .IfStatement condition if_body else_body =>
      -- compile_if_statement, jack_compiler.py:149-174: labels are drawn
      -- first (IF_END at :152; IF_FALSE at :155 only when an else branch
      -- exists, otherwise condition_failed is the end label); then
      -- condition, not, if-goto, then-body, and the else machinery.  The
      -- source tests `statement.else_body is not None` three times; here
      -- the two outcomes are dispatched once, with identical emission.
      let g1 := genLabel lc "IF_END"
      match else_body with
      | none =>
          match compileExpression cn st condition with
          | none => none
          | some cond =>
              match compileStatements cn st g1.2 if_body with
              | none => none
              | some (thenCode, lc3) =>
                  some (cond ++ [.arith .Not, .ifGoto g1.1] ++
                    thenCode ++ [.label g1.1], lc3)
      | some eb =>
          let g2 := genLabel g1.2 "IF_FALSE"
          match compileExpression cn st condition with
          | none => none
          | some cond =>
              match compileStatements cn st g2.2 if_body with
              | none => none
              | some (thenCode, lc3) =>
                  match compileStatements cn st lc3 eb with
                  | none => none
                  | some (elseCode, lc4) =>
                      some (cond ++ [.arith .Not, .ifGoto g2.1] ++
                        thenCode ++ [.goto g1.1, .label g2.1] ++
                        elseCode ++ [.label g1.1], lc4)
  | .WhileStatement condition body =>
      -- compile_while_statement, jack_compiler.py:182-197.
      let g1 := genLabel lc "WHILE_EXP"
      let g2 := genLabel g1.2 "WHILE_END"
      match compileExpression cn st condition with
      | none => none
      | some cond =>
          match compileStatements cn st g2.2 body with
          | none => none
          | some (bodyCode, lc3) =>
              some (.label g1.1 :: cond ++
                [.arith .Not, .ifGoto g2.1] ++ bodyCode ++
                [.goto g1.1, .label g2.1], lc3)
  | .DoStatement call =>
      -- compile_do_statement, jack_compiler.py:176-180: the call, then the
      -- result is discarded into temp 0.
      match compileSubroutineCall cn st call with
      | none => none
      | some c => some (c ++ [.pop .Temp 0], lc)
  | .ReturnStatement return_expr =>
      -- compile_return_statement, jack_compiler.py:226-234: the return
      -- expression when present, otherwise push constant 0; then return.
      match return_expr with
      | some e =>
          match compileExpression cn st e with
          | none => none
          | some c => some (c ++ [.ret], lc)
      | none => some ([.push .Const 0, .ret], lc)

/-- `JackCompiler.compile_statements` (`jack_compiler.py:128-131`): each
statement in order, first failure aborts, label state threaded through. -/
def compileStatements (cn : String) (st : SymbolTable) (lc : LabelState) :
    List Statement → Option (List Instr × LabelState)
  | [] => some ([], lc)
  | s :: rest =>
      match compileStatement cn st lc s with
      | none => none
      | some (c, lc') =>
          match compileStatements cn st lc' rest with
          | none => none
          | some (cs, lc'') => some (c ++ cs, lc'')
end

/-- `jack_types.SubroutineType` (`jack_types.py:86-105`). -/
inductive SubroutineType where
  | Constructor
  | Function
  | Method
deriving DecidableEq, Repr

/-- `jack_types.ClassVariableDeclaration` (`jack_types.py:78-83`). -/
structure ClassVariableDeclaration where
  name : String
  type : String
  kind : Kind
deriving DecidableEq, Repr

/-- `jack_types.SubroutineVariableDeclaration` (`jack_types.py:129-135`). -/
structure SubroutineVariableDeclaration where
  name : String
  type : String
  kind : Kind
deriving DecidableEq, Repr

/-- `jack_types.SubroutineArgument` (`jack_types.py:138-143`). -/
structure SubroutineArgument where
  name : String
  type : String
deriving DecidableEq, Repr

/-- `jack_types.SubroutineBody` (`jack_types.py:124-127`). -/
structure SubroutineBody where
  variable_declarations : List SubroutineVariableDeclaration
  statements : List Statement

/-- `jack_types.Subroutine` (`jack_types.py:108-122`); `class_name` is
filled by the parser with the enclosing class's name
(`jack_parser.py:133`), and `canonical_name` is
`f"{class_name}.{name}"` (`jack_types.py:118-122`). -/
structure Subroutine where
  subroutine_type : SubroutineType
  class_name : String
  name : String
  arguments : List SubroutineArgument
  return_type : Option String
  body : SubroutineBody

/-- `jack_types.Class` (`jack_types.py:63-75`). -/
structure Class where
  class_name : String
  variable_declarations : List ClassVariableDeclaration
  subroutines : List Subroutine

/-- `Class.class_size_in_words` (`jack_types.py:70-75`): the number of
`Field` declarations. -/
def Class.class_size_in_words (c : Class) : Nat :=
  (c.variable_declarations.filter (fun d => d.kind = Kind.Field)).length

/-- The symbol-table phase of `JackCompiler.compile_subroutine`
(`jack_compiler.py:42-61`): reset the subroutine scope; for a `Method`
define the synthetic `this` argument of the class's type first; then the
declared arguments as `Arg`; then the body's variable declarations with
their own kind.  (`cn` is `self.__class.class_name`.) -/
def symbolPhase (cn : String) (st : SymbolTable) (sub : Subroutine) :
    SymbolTable :=
  let st1 := st.start_subroutine
  let st2 :=
    if sub.subroutine_type = SubroutineType.Method then
      st1.define "this" cn Kind.Arg
    else st1
  let st3 := sub.arguments.foldl
    (fun t a => t.define a.name a.type Kind.Arg) st2
  sub.body.variable_declarations.foldl
    (fun t v => t.define v.name v.type v.kind) st3

/-- `JackCompiler.compile_subroutine` (`jack_compiler.py:38-91`), returning
the emitted instructions together with the symbol table left behind (the
table is the compiler's single mutable table, threaded across
subroutines).  `self.__label_count.clear()` at `:39` makes the statement
phase start from the empty label dict.  The loop at `:55-61` asserts
`var.kind is Kind.Var` for every body declaration (an `AssertionError`
aborts, hence the `all` guard), and `num_locals` at `:64-65` counts the
`Var`-kind declarations.  Then: the `function` header with the canonical
name, the `this`-anchoring pair for a `Method`, the allocation prologue for
a `Constructor` (size `class_size_in_words`) followed by the class-scope
definition of `this` as a `Field` (`jack_compiler.py:76-85`), and the
compiled statements. -/
def compileSubroutine (clazz : Class) (st : SymbolTable) (sub : Subroutine) :
    Option (List Instr × SymbolTable) :=
  if sub.body.variable_declarations.all (fun v => v.kind = Kind.Var) then
    let st' := symbolPhase clazz.class_name st sub
    let numLocals :=
      (sub.body.variable_declarations.filter
        (fun v => v.kind = Kind.Var)).length
    let header : List Instr :=
      [.function (sub.class_name ++ "." ++ sub.name) numLocals]
    let anchor : List Instr :=
      if sub.subroutine_type = SubroutineType.Method then
        [.push .Arg 0, .pop .Pointer 0]
      else []
    let ctorProlog : List Instr :=
      if sub.subroutine_type = SubroutineType.Constructor then
        [.push .Const clazz.class_size_in_words, .call "Memory.alloc" 1,
         .pop .Pointer 0]
      else []
    let st'' :=
      if sub.subroutine_type = SubroutineType.Constructor then
        st'.define "this" clazz.class_name Kind.Field
      else st'
    match compileStatements clazz.class_name st'' [] sub.body.statements with
    | none => none
    | some (bodyCode, _) =>
        some (header ++ anchor ++ ctorProlog ++ bodyCode, st'')
  else none

/-- The subroutine loop of `JackCompiler.compile_class`
(`jack_compiler.py:35-36`): each subroutine in order against the threaded
symbol table, instruction streams concatenated. -/
def compileSubs (clazz : Class) (st : SymbolTable) :
    List Subroutine → Option (List Instr × SymbolTable)
  | [] => some ([], st)
  | sub :: rest =>
      match compileSubroutine clazz st sub with
      | none => none
      | some (c, st') =>
          match compileSubs clazz st' rest with
          | none => none
          | some (cs, st'') => some (c ++ cs, st'')

/-- The declaration pass of `JackCompiler.compile_class`
(`jack_compiler.py:28-33`): every class variable declaration is defined in
the (fresh, `jack_compiler.py:15`) symbol table with its declared kind. -/
def declsTable (decls : List ClassVariableDeclaration) : SymbolTable :=
  decls.foldl (fun t v => t.define v.name v.type v.kind) SymbolTable.empty

/-- `JackCompiler.compile_class` (`jack_compiler.py:26-36`). -/
def compileClass (clazz : Class) : Option (List Instr × SymbolTable) :=
  compileSubs clazz (declsTable clazz.variable_declarations)
    clazz.subroutines

/-- The named groups of `Tokenizer.TOKENIZER_REGEX` (`tokenizer.py:36-51`),
in their alternation order. -/
inductive MatchKind where
  | multiComment
  | stringConstant
  | comment
  | integerConstant
  | symbol
  | keywordOrIdent
deriving DecidableEq, Repr

/-- `Tokenizer.SYMBOLS` (`tokenizer.py:29-31`). -/
def SYMBOLS : List Char :=
  ['\x7b', '\x7d', '(', ')', '[', ']', '.', ',', ';', '+', '-', '*', '/',
   '&', '|', '<', '>', '=', '~']

/-- `Tokenizer.KEYWORDS` (`tokenizer.py:24-27`). -/
def KEYWORDS : List String :=
  ["class", "constructor", "function", "method", "field", "static", "var",
   "int", "char", "boolean", "void", "true", "false", "null", "this",
   "let", "do", "if", "else", "while", "return"]

/-- A character matched by the regex class `\w` (`tokenizer.py:46`):
alphanumeric or underscore (the ASCII fragment of Python's `\w`; the
sources and all inputs of interest are ASCII). -/
def isWordChar (c : Char) : Bool :=
  c.isAlphanum || c = '_'

/-- Helper for the non-greedy `/\*[\s\S]*?\*/` body (`tokenizer.py:36`):
split the input at the first occurrence of `*/`, returning the consumed
characters (closer included) and the remainder; `none` when no closer
exists, in which case the whole alternative fails. -/
def splitAtCloser : List Char → Option (List Char × List Char)
  | '*' :: '/' :: rest => some (['*', '/'], rest)
  | c :: rest =>
      match splitAtCloser rest with
      | some (a, b) => some (c :: a, b)
      | none => none
  | [] => none

/-- Helper for the non-greedy `\".*?\"` body (`tokenizer.py:38`): split the
input at the first `"`, returning the enclosed characters and the
remainder; since `.` does not match a newline, the alternative fails when a
newline (or the end of input) precedes the closing quote. -/
def splitAtQuote : List Char → Option (List Char × List Char)
  | '"' :: rest => some ([], rest)
  | '\n' :: _ => none
  | c :: rest =>
      match splitAtQuote rest with
      | some (a, b) => some (c :: a, b)
      | none => none
  | [] => none

/-- The alternative `(?P<multiComment>/\*[\s\S]*?\*/)`: lexeme and rest. -/
def matchMultiComment : List Char → Option (List Char × List Char)
  | '/' :: '*' :: rest =>
      match splitAtCloser rest with
      | some (body, rest') => some ('/' :: '*' :: body, rest')
      | none => none
  | _ => none

/-- The alternative `(?P<stringConstant>\".*?\")`: lexeme (quotes included)
and rest. -/
def matchStringConstant : List Char → Option (List Char × List Char)
  | '"' :: rest =>
      match splitAtQuote rest with
      | some (inner, rest') => some ('"' :: inner ++ ['"'], rest')
      | none => none
  | _ => none

/-- The alternative `(?P<comment>//.*)`: the line comment runs to the end
of the line (newline excluded). -/
def matchComment : List Char → Option (List Char × List Char)
  | '/' :: '/' :: rest =>
      some ('/' :: '/' :: rest.takeWhile (fun c => c ≠ '\n'),
        rest.dropWhile (fun c => c ≠ '\n'))
  | _ => none

/-- The alternative `(?P<integerConstant>\d+)`: a maximal digit run. -/
def matchIntConstant (s : List Char) : Option (List Char × List Char) :=
  match s with
  | c :: _ =>
      if c.isDigit then
        some (s.takeWhile Char.isDigit, s.dropWhile Char.isDigit)
      else none
  | [] => none

/-- The alternative `(?P<symbol>[...])`: a single character of
`Tokenizer.SYMBOLS`. -/
def matchSymbol : List Char → Option (List Char × List Char)
  | c :: rest => if c ∈ SYMBOLS then some ([c], rest) else none
  | [] => none

/-- The alternative `(?P<keywordOrIdent>\w+)`: a maximal word-character
run. -/
def matchWord (s : List Char) : Option (List Char × List Char) :=
  match s with
  | c :: _ =>
      if isWordChar c then
        some (s.takeWhile isWordChar, s.dropWhile isWordChar)
      else none
  | [] => none

/-- One attempt of `TOKENIZER_REGEX` at the current offset: Python regex
alternation is leftmost-first, so the six named alternatives are tried in
the order of `tokenizer.py:48-51` and the first that matches wins. -/
def tryMatch (s : List Char) : Option (MatchKind × List Char × List Char) :=
  match matchMultiComment s with
  | some (lex, r) => some (.multiComment, lex, r)
  | none =>
  match matchStringConstant s with
  | some (lex, r) => some (.stringConstant, lex, r)
  | none =>
  match matchComment s with
  | some (lex, r) => some (.comment, lex, r)
  | none =>
  match matchIntConstant s with
  | some (lex, r) => some (.integerConstant, lex, r)
  | none =>
  match matchSymbol s with
  | some (lex, r) => some (.symbol, lex, r)
  | none =>
  match matchWord s with
  | some (lex, r) => some (.keywordOrIdent, lex, r)
  | none => none

/-- The scan performed by `re.finditer` over the file contents
(`tokenizer.py:61`): at each offset, if the regex matches, the match is
consumed (its start offset recorded) and scanning resumes after it;
otherwise `finditer` advances one character - characters matching no
alternative (whitespace included) are silently passed over and can never
raise.  The fuel argument is a recursion bound only: every step consumes at
least one character of the remaining input (every alternative's lexeme is
nonempty, a skip consumes one), so fuel `s.length` makes the base case
unreachable. -/
def scanAux : Nat → Nat → List Char → List (MatchKind × Nat × List Char)
  | 0, _, _ => []
  | _ + 1, _, [] => []
  | fuel + 1, pos, c :: rest =>
      match tryMatch (c :: rest) with
      | some (kind, lex, rest') =>
          (kind, pos, lex) :: scanAux fuel (pos + lex.length) rest'
      | none => scanAux fuel (pos + 1) rest

/-- The token kinds yielded by `Tokenizer.iter_tokens`
(`tokenizer.py:59-77`). -/
inductive TokenType where
  | keyword
  | symbol
  | identifier
  | integerConstant
  | stringConstant
deriving DecidableEq, Repr

/-- `tokenizer.Token` (`tokenizer.py:9-13`): type, contents (an integer for
an `integerConstant`, the text otherwise) and the match's start offset. -/
structure Token where
  type : TokenType
  contents : Sum String Nat
  file_pos : Nat
deriving DecidableEq, Repr

/-- `int(contents)` on a digit run. -/
def natOfDigits (l : List Char) : Nat :=
  l.foldl (fun n c => 10 * n + (c.toNat - '0'.toNat)) 0

/-- The classification loop body of `Tokenizer.iter_tokens`
(`tokenizer.py:62-77`): comments are dropped, an integer constant's text is
converted with `int`, a string constant's quotes are stripped
(`contents[1:-1]`), and a `\w+` run is a `keyword` when listed in
`Tokenizer.KEYWORDS` and an `identifier` otherwise.  The guard
`if not token_type: raise ValueError` at `tokenizer.py:63-64` is
unreachable: every alternative of the regex is a named group, so
`match.lastgroup` is always set; accordingly no error case appears here. -/
def postTokens : List (MatchKind × Nat × List Char) → List Token
  | [] => []
  | (kind, pos, lex) :: rest =>
      match kind with
      | .multiComment => postTokens rest
      | .comment => postTokens rest
      | .integerConstant =>
          ⟨.integerConstant, Sum.inr (natOfDigits lex), pos⟩ ::
            postTokens rest
      | .stringConstant =>
          ⟨.stringConstant, Sum.inl (String.mk (lex.drop 1).dropLast),
            pos⟩ :: postTokens rest
      | .symbol => ⟨.symbol, Sum.inl (String.mk lex), pos⟩ :: postTokens rest
      | .keywordOrIdent =>
          if String.mk lex ∈ KEYWORDS then
            ⟨.keyword, Sum.inl (String.mk lex), pos⟩ :: postTokens rest
          else
            ⟨.identifier, Sum.inl (String.mk lex), pos⟩ :: postTokens rest

/-- `Tokenizer.iter_tokens` (`tokenizer.py:59-77`) as a whole: scan the
entire contents and classify the matches.  Total: no failure path exists. -/
def iterTokens (content : String) : List Token :=
  postTokens (scanAux content.toList.length 0 content.toList)

/-- The indices currently assigned to symbols of a given storage class, in
insertion order of the scope dict appropriate to that class. -/
def indicesOf (t : SymbolTable) (k : Kind) : List Nat :=
  ((t.tableForKind k).filter (fun e => e.2.kind = k)).map
    (fun e => e.2.index)

/-- The common shape of the three `define` loops of the compiler
(`jack_compiler.py:28-33`, `:49-54` and `:55-61`): a left fold of
`SymbolTable.define` over a list of records, with `nm`/`tp`/`kd`
projecting each record's name, type and kind. -/
def defineFold {β : Type} (nm tp : β → String) (kd : β → Kind)
    (t : SymbolTable) (l : List β) : SymbolTable :=
  l.foldl (fun t b => t.define (nm b) (tp b) (kd b)) t

theorem dget_dput_self {α : Type} (d : List (String × α)) (k : String)
    (v : α) : dget (dput d k v) k = some v := by
  induction d with
  | nil => simp [dput, dget]
  | cons e rest ih =>
      by_cases h : e.1 = k <;> simp [dput, dget, h, ih]

theorem dget_dput_ne {α : Type} (d : List (String × α)) (k k' : String)
    (v : α) (h : k' ≠ k) : dget (dput d k v) k' = dget d k' := by
  have hkk : ¬(k = k') := fun hh => h hh.symm
  induction d with
  | nil => simp [dput, dget, hkk]
  | cons e rest ih =>
      by_cases he : e.1 = k
      · have he' : ¬(e.1 = k') := by rw [he]; exact hkk
        simp [dput, dget, he, hkk, he']
      · simp [dput, dget, he, ih]

theorem dput_fresh {α : Type} (d : List (String × α)) (k : String) (v : α)
    (h : dget d k = none) : dput d k v = d ++ [(k, v)] := by
  induction d with
  | nil => simp [dput]
  | cons e rest ih =>
      by_cases he : e.1 = k
      · simp [dget, he] at h
      · simp [dget, he] at h
        simp [dput, he, ih h]

theorem stackEffect_append (a b : List Instr) :
    stackEffect (a ++ b) = stackEffect a + stackEffect b := by
  simp [stackEffect]

theorem stackEffect_writePushString (s : String) :
    stackEffect (writePushString s) = 1 := by
  have h : ∀ l : List Char,
      stackEffect (l.flatMap
        (fun c => [Instr.push .Const c.toNat,
                   Instr.call "String.appendChar" 2])) = 0 := by
    intro l
    induction l with
    | nil => simp [stackEffect]
    | cons c rest ih =>
        simp only [List.flatMap_cons]
        rw [stackEffect_append, ih]
        simp [stackEffect, instrEffect]
  simp only [writePushString]
  have := h s.data
  simp [stackEffect, instrEffect] at this ⊢
  omega

/-- C1: the claim asserts that compiling `1 * 2 + 3` emits the same
instruction order as `(1 * 2) + 3` and a different one than `1 * (2 + 3)`.
In fact `compile_expression` (`jack_compiler.py:270-296`) emits nothing for
any of the three: the guard `isinstance(expr.elements[1], Operator)` at
`:283` tests against `vm_writer.Operator` (the name `Operator` in
`jack_compiler.py` is bound by `from vm_writer import *`, overriding the
earlier `from jack_types import *`), while parsed expressions hold
`jack_types.Operator` members, so every expression list with two or more
elements reaches the `raise ValueError` at `:296`.  In particular
`1 * 2 + 3` compiles identically to `1 * (2 + 3)` (both fail), refuting
the claimed difference. -/
theorem c1_counterexample :
    compileExpression "Main" SymbolTable.empty
      (.mk [Sum.inr (.IntegerConstant 1), Sum.inl Operator.Mul,
            Sum.inr (.IntegerConstant 2), Sum.inl Operator.Add,
            Sum.inr (.IntegerConstant 3)]) = none ∧
    compileExpression "Main" SymbolTable.empty
      (.mk [Sum.inr (.Parentheses (.mk [Sum.inr (.IntegerConstant 1),
              Sum.inl Operator.Mul, Sum.inr (.IntegerConstant 2)])),
            Sum.inl Operator.Add, Sum.inr (.IntegerConstant 3)]) = none ∧
    compileExpression "Main" SymbolTable.empty
      (.mk [Sum.inr (.IntegerConstant 1), Sum.inl Operator.Mul,
            Sum.inr (.Parentheses (.mk [Sum.inr (.IntegerConstant 2),
              Sum.inl Operator.Add, Sum.inr (.IntegerConstant 3)]))]) =
      none ∧
    compileExpression "Main" SymbolTable.empty
      (.mk [Sum.inr (.IntegerConstant 1), Sum.inl Operator.Mul,
            Sum.inr (.IntegerConstant 2), Sum.inl Operator.Add,
            Sum.inr (.IntegerConstant 3)]) =
    compileExpression "Main" SymbolTable.empty
      (.mk [Sum.inr (.IntegerConstant 1), Sum.inl Operator.Mul,
            Sum.inr (.Parentheses (.mk [Sum.inr (.IntegerConstant 2),
              Sum.inl Operator.Add, Sum.inr (.IntegerConstant 3)]))]) :=
  ⟨rfl, rfl, rfl, rfl⟩

/-- C1 (amended): no expression whose element list has two or more entries
(i.e. no expression with at least one binary operator) produces an
instruction stream - `compile_expression` raises `ValueError` for all of
them, because `isinstance(expr.elements[1], Operator)` at
`jack_compiler.py:283` tests against `vm_writer.Operator` while parsed
ASTs store `jack_types.Operator`; so `1 * 2 + 3`, `(1 * 2) + 3` and
`1 * (2 + 3)` all compile to no output and no grouping law is realized. -/
theorem c1_theorem (cn : String) (st : SymbolTable)
    (x y : Sum Operator Term) (rest : List (Sum Operator Term)) :
    compileExpression cn st (.mk (x :: y :: rest)) = none := by
  cases x <;> rfl

/-- C2: the claim states the central stack contract - every legal
expression's emitted code nets exactly one value.  Two violations, both
from the `Operator` import shadowing recorded in the header note:
(1) the keyword constant `true` compiles successfully to
`push constant 1` followed by the line `"sub"` (at `jack_compiler.py:332`
the literal `Operator.Neg` is `vm_writer.Operator.Neg`, which is an enum
alias of `Sub` because both members have the value `"-"`), an instruction
pair whose net stack effect is 0, not 1 - `sub` consumes two operands;
(2) any expression with a binary operator raises `ValueError` and emits
nothing at all (see `c1_theorem`).  Both contradict the code's own
docstring at `jack_compiler.py:271-273` ("ending with the expression's
result at the head of the stack"). -/
theorem c2_theorem (cn : String) (st : SymbolTable) :
    compileExpression cn st (.mk [Sum.inr (.KeywordConstant "true")]) =
      some [.push .Const 1, .arith .Sub] ∧
    stackEffect [.push .Const 1, .arith .Sub] = 0 ∧
    (0 : Int) ≠ 1 ∧
    compileExpression cn st
      (.mk [Sum.inr (.IntegerConstant 1), Sum.inl Operator.Add,
            Sum.inr (.IntegerConstant 2)]) = none :=
  ⟨rfl, by decide, by decide, rfl⟩

/-- C3: the claim says a duplicate `define` fails with
`DuplicateSymbolError` and leaves the table unchanged.
`SymbolTable.define` (`symbol_table.py:66-70`) contains no duplicate check
and no raise (no `DuplicateSymbolError` class exists anywhere in the
sources); redefining `x` in the same scope silently overwrites the entry
with a new symbol at index `var_count = 1`, visibly changing the table. -/
theorem c3_counterexample :
    ((SymbolTable.empty.define "x" "int" Kind.Var).define "x" "int"
        Kind.Var) ≠ SymbolTable.empty.define "x" "int" Kind.Var ∧
    ((SymbolTable.empty.define "x" "int" Kind.Var).define "x" "int"
        Kind.Var).getItem "x" = some ⟨"x", "int", Kind.Var, 1⟩ := by
  constructor
  · decide
  · decide

/-- C3 (amended): `define` never fails.  It always stores a symbol whose
index is the current count of its storage class in the appropriate scope,
silently replacing any existing binding of that name; and after
`start_subroutine` the subroutine scope is empty, so defining a name that
was only ever defined in the subroutine scope succeeds (with index 0 when
it is the first symbol of its storage class), which is the shadowing
behaviour the claim describes. -/
theorem c3_theorem :
    (∀ (t : SymbolTable) (n ty : String) (k : Kind),
      dget ((t.define n ty k).tableForKind k) n =
        some ⟨n, ty, k, t.var_count k⟩) ∧
    (∀ (t : SymbolTable) (n ty : String) (k : Kind), k.isFuncScope →
      ((t.start_subroutine).define n ty k).getItem n =
        some ⟨n, ty, k, 0⟩) := by
  constructor
  · intro t n ty k
    by_cases h : k.isFuncScope <;>
      simp [SymbolTable.define, SymbolTable.tableForKind, h, dget_dput_self]
  · intro t n ty k h
    simp [SymbolTable.define, SymbolTable.var_count,
      SymbolTable.tableForKind, SymbolTable.start_subroutine, h,
      SymbolTable.getItem, dput, dget]

/-- Witness for `c3_theorem`: the shadowing clause at a concrete instance -
`x` defined as a class-scope `Static`, then after `start_subroutine` it is
(re)defined in the fresh subroutine scope as a `Var` at index 0. -/
theorem c3_witness :
    (((SymbolTable.empty.define "x" "int" Kind.Static).start_subroutine
        ).define "x" "int" Kind.Var).getItem "x" =
      some ⟨"x", "int", Kind.Var, 0⟩ :=
  c3_theorem.2 (SymbolTable.empty.define "x" "int" Kind.Static) "x" "int"
    Kind.Var (by decide)

/-- C5: for `let arr[2] = 5;` with `arr` resolving to a `Var` (local
segment) symbol at index 0, `compile_let_statement`
(`jack_compiler.py:199-224`) emits exactly the claimed eight instructions:
index expression, base push, `add`, value expression, `pop temp 0`,
`pop pointer 1`, `push temp 0`, `pop that 0` - the element address is
completed before the value expression runs. -/
theorem c5_theorem (cn ty : String) (st : SymbolTable) (lc : LabelState)
    (h : st.getItem "arr" = some ⟨"arr", ty, Kind.Var, 0⟩) :
    compileStatement cn st lc
      (.LetStatement "arr" (some (.mk [Sum.inr (.IntegerConstant 2)]))
        (.mk [Sum.inr (.IntegerConstant 5)])) =
    some ([.push .Const 2, .push .Local 0, .arith .Add, .push .Const 5,
           .pop .Temp 0, .pop .Pointer 1, .push .Temp 0, .pop .That 0],
          lc) := by
  simp [compileStatement, h, compileExpression, compileTerm,
    writePushSymbol, Segment.fromKind]

/-- Witness for `c5_theorem`: a concrete table whose only entry is the
local array handle `arr` at index 0. -/
theorem c5_witness :
    compileStatement "Main"
      ⟨[], [("arr", ⟨"arr", "Array", Kind.Var, 0⟩)]⟩ []
      (.LetStatement "arr" (some (.mk [Sum.inr (.IntegerConstant 2)]))
        (.mk [Sum.inr (.IntegerConstant 5)])) =
    some ([.push .Const 2, .push .Local 0, .arith .Add, .push .Const 5,
           .pop .Temp 0, .pop .Pointer 1, .push .Temp 0, .pop .That 0],
          []) :=
  c5_theorem "Main" "Array" ⟨[], [("arr", ⟨"arr", "Array", Kind.Var, 0⟩)]⟩
    [] (by decide)

/-- C8: the claim says an input containing a character sequence matched by
no tokenizer rule fails with a `LexError` at that offset.  In fact
`iter_tokens` (`tokenizer.py:59-77`) iterates `re.finditer`, which simply
skips over text that matches no alternative (that is also how whitespace
is discarded), and no `LexError` class exists anywhere in the sources: on
`"let x = $ 1;"` the `$` at offset 8 matches no rule (shown by the
`tryMatch` conjunct on the remaining input at that offset), yet a full
token stream is produced. -/
theorem c8_counterexample :
    tryMatch ('$' :: ' ' :: '1' :: ';' :: []) = none ∧
    iterTokens "let x = $ 1;" =
      [⟨.keyword, Sum.inl "let", 0⟩, ⟨.identifier, Sum.inl "x", 4⟩,
       ⟨.symbol, Sum.inl "=", 6⟩, ⟨.integerConstant, Sum.inr 1, 10⟩,
       ⟨.symbol, Sum.inl ";", 11⟩] := by
  constructor
  · decide
  · decide

/-- C8 (amended): a character at which no tokenizer rule matches is
silently skipped - the scan resumes at the next offset with no token
emitted and no error (tokenization is total and always yields the stream
of matched rules; the only `raise` in `iter_tokens`, at
`tokenizer.py:63-64`, is unreachable because every regex alternative is a
named group). -/
theorem c8_theorem (fuel pos : Nat) (c : Char) (rest : List Char)
    (h : tryMatch (c :: rest) = none) :
    scanAux (fuel + 1) pos (c :: rest) = scanAux fuel (pos + 1) rest := by
  simp [scanAux, h]

/-- Witness for `c8_theorem`: the unmatched character `$` before the digit
`1` is skipped. -/
theorem c8_witness :
    scanAux 2 0 ('$' :: '1' :: []) = scanAux 1 1 ('1' :: []) :=
  c8_theorem 1 0 '$' ('1' :: []) (by decide)

/-- C9: a string-literal term compiles (`jack_compiler.py:317-318` via
`write_push_string`, modelled from the spec - see `writePushString`) to a
`String.new` call on the literal's length followed by exactly one
`String.appendChar` call per character, in character order, and the whole
sequence nets exactly one value (the string) on the stack. -/
theorem c9_theorem (cn : String) (st : SymbolTable) (v : String) :
    compileTerm cn st (.StringConstant v) = some (writePushString v) ∧
    writePushString v =
      .push .Const v.length :: .call "String.new" 1 ::
        v.data.flatMap
          (fun c => [.push .Const c.toNat,
                     .call "String.appendChar" 2]) ∧
    stackEffect (writePushString v) = 1 :=
  ⟨rfl, rfl, stackEffect_writePushString v⟩

theorem compileStatements_append (cn : String) (st : SymbolTable)
    (lc lc1 lc2 : LabelState) (a b : List Statement) (c cs : List Instr)
    (h1 : compileStatements cn st lc a = some (c, lc1))
    (h2 : compileStatements cn st lc1 b = some (cs, lc2)) :
    compileStatements cn st lc (a ++ b) = some (c ++ cs, lc2) := by
  induction a generalizing lc c lc1 with
  | nil =>
      simp only [compileStatements, Option.some.injEq, Prod.mk.injEq] at h1
      obtain ⟨hc, hlc⟩ := h1
      subst hc; subst hlc
      simpa using h2
  | cons s rest ih =>
      simp only [compileStatements] at h1
      cases hs : compileStatement cn st lc s with
      | none => simp only [hs] at h1; exact Option.noConfusion h1
      | some p =>
          obtain ⟨c0, lcx⟩ := p
          simp only [hs] at h1
          cases hrest : compileStatements cn st lcx rest with
          | none =>
              simp only [hrest] at h1
              exact Option.noConfusion h1
          | some q =>
              obtain ⟨c1, lcy⟩ := q
              simp only [hrest, Option.some.injEq, Prod.mk.injEq] at h1
              obtain ⟨hc, hlc⟩ := h1
              rw [← hlc] at h2
              have hih := ih lcx lcy c1 hrest h2
              simp only [List.cons_append, compileStatements, hs]
              simp only [show rest.append b = rest ++ b from rfl, hih]
              simp [← hc, List.append_assoc]

/-- C4: the claim says a two-field class's zero-parameter constructor ends
in a `return` preceded by `push pointer 0` even for a bare `return;`.  On
the concrete class `Point` with two fields and the constructor body
`return;`, `compile_return_statement` (`jack_compiler.py:226-234`) emits
`push constant 0` before the `return` (the void-return convention), not
`push pointer 0`: the instruction before the final `return` is
`push constant 0`. -/
theorem c4_counterexample :
    compileSubroutine
      ⟨"Point", [⟨"x", "int", Kind.Field⟩, ⟨"y", "int", Kind.Field⟩], []⟩
      (declsTable [⟨"x", "int", Kind.Field⟩, ⟨"y", "int", Kind.Field⟩])
      ⟨SubroutineType.Constructor, "Point", "new", [], none,
        ⟨[], [.ReturnStatement none]⟩⟩ =
      some ([.function "Point.new" 0, .push .Const 2,
             .call "Memory.alloc" 1, .pop .Pointer 0, .push .Const 0,
             .ret],
            ⟨[("x", ⟨"x", "int", Kind.Field, 0⟩),
              ("y", ⟨"y", "int", Kind.Field, 1⟩),
              ("this", ⟨"this", "Point", Kind.Field, 2⟩)], []⟩) ∧
    ([Instr.function "Point.new" 0, .push .Const 2, .call "Memory.alloc" 1,
      .pop .Pointer 0, .push .Const 0, .ret].getLast? = some Instr.ret) ∧
    ([Instr.function "Point.new" 0, .push .Const 2, .call "Memory.alloc" 1,
      .pop .Pointer 0, .push .Const 0,
      .ret].dropLast.getLast? = some (Instr.push .Const 0)) ∧
    Instr.push .Const 0 ≠ Instr.push .Pointer 0 := by
  refine ⟨by decide, by decide, by decide, by decide⟩

/-- C4 (amended): for every class with exactly two field declarations, a
constructor with no parameters and no local declarations compiles to the
`function` header with 0 locals, then `push constant 2`,
`call Memory.alloc 1`, `pop pointer 0`, then the body's code; the final
`return` is preceded by `push pointer 0` when the last statement is the
explicit `return this;`, while a bare `return;` instead pushes
`constant 0` (the void-return convention of
`jack_compiler.py:226-234`). -/
theorem c4_theorem (clazz : Class) (st : SymbolTable) (cnS nm : String)
    (rt : Option String) (pre : List Statement) (r : Option Expression)
    (preCode : List Instr) (lc' : LabelState) (fin : List Instr)
    (hsize : clazz.class_size_in_words = 2)
    (hpre : compileStatements clazz.class_name
      ((symbolPhase clazz.class_name st
        ⟨SubroutineType.Constructor, cnS, nm, [], rt,
          ⟨[], pre ++ [.ReturnStatement r]⟩⟩).define "this"
        clazz.class_name Kind.Field) [] pre = some (preCode, lc'))
    (hr : (r = none ∧ fin = [.push .Const 0, .ret]) ∨
          (r = some (.mk [Sum.inr (.KeywordConstant "this")]) ∧
           fin = [.push .Pointer 0, .ret])) :
    compileSubroutine clazz st
      ⟨SubroutineType.Constructor, cnS, nm, [], rt,
        ⟨[], pre ++ [.ReturnStatement r]⟩⟩ =
    some (.function (cnS ++ "." ++ nm) 0 :: .push .Const 2 ::
      .call "Memory.alloc" 1 :: .pop .Pointer 0 :: (preCode ++ fin),
      (symbolPhase clazz.class_name st
        ⟨SubroutineType.Constructor, cnS, nm, [], rt,
          ⟨[], pre ++ [.ReturnStatement r]⟩⟩).define "this"
        clazz.class_name Kind.Field) := by
  have hret : ∀ lcx : LabelState,
      compileStatements clazz.class_name
        ((symbolPhase clazz.class_name st
          ⟨SubroutineType.Constructor, cnS, nm, [], rt,
            ⟨[], pre ++ [.ReturnStatement r]⟩⟩).define "this"
          clazz.class_name Kind.Field) lcx [Statement.ReturnStatement r] =
        some (fin, lcx) := by
    intro lcx
    rcases hr with ⟨hr1, hr2⟩ | ⟨hr1, hr2⟩ <;>
      subst hr1 <;> subst hr2 <;>
      simp [compileStatements, compileStatement, compileExpression,
        compileTerm, compileKeywordConstant]
  simp only [compileSubroutine, List.all_nil, if_true, List.filter_nil,
    List.length_nil, hsize]
  rw [compileStatements_append _ _ _ _ _ _ _ _ _ hpre (hret lc')]
  simp

/-- Witness for `c4_theorem`: the `Point` constructor whose whole body is
`return this;`. -/
theorem c4_witness :
    compileSubroutine
      ⟨"Point", [⟨"x", "int", Kind.Field⟩, ⟨"y", "int", Kind.Field⟩], []⟩
      (declsTable [⟨"x", "int", Kind.Field⟩, ⟨"y", "int", Kind.Field⟩])
      ⟨SubroutineType.Constructor, "Point", "new", [], none,
        ⟨[], [] ++ [.ReturnStatement
          (some (.mk [Sum.inr (.KeywordConstant "this")]))]⟩⟩ =
    some (.function ("Point" ++ "." ++ "new") 0 :: .push .Const 2 ::
      .call "Memory.alloc" 1 :: .pop .Pointer 0 ::
      ([] ++ [Instr.push .Pointer 0, .ret]),
      (symbolPhase "Point"
        (declsTable [⟨"x", "int", Kind.Field⟩, ⟨"y", "int", Kind.Field⟩])
        ⟨SubroutineType.Constructor, "Point", "new", [], none,
          ⟨[], [] ++ [.ReturnStatement
            (some (.mk [Sum.inr (.KeywordConstant "this")]))]⟩⟩).define
        "this" "Point" Kind.Field) :=
  c4_theorem
    ⟨"Point", [⟨"x", "int", Kind.Field⟩, ⟨"y", "int", Kind.Field⟩], []⟩
    (declsTable [⟨"x", "int", Kind.Field⟩, ⟨"y", "int", Kind.Field⟩])
    "Point" "new" none [] (some (.mk [Sum.inr (.KeywordConstant "this")]))
    [] [] [.push .Pointer 0, .ret] (by decide) (by decide)
    (Or.inr ⟨rfl, rfl⟩)

theorem define_dget_self (t : SymbolTable) (m ty : String) (k : Kind) :
    dget ((t.define m ty k).tableForKind k) m =
      some ⟨m, ty, k, t.var_count k⟩ := by
  by_cases h : k.isFuncScope <;>
    simp [SymbolTable.define, SymbolTable.tableForKind, h, dget_dput_self]

theorem define_dget_ne (t : SymbolTable) (m ty n : String) (k : Kind)
    (h : n ≠ m) :
    dget (t.define m ty k).class_table n = dget t.class_table n ∧
    dget (t.define m ty k).func_table n = dget t.func_table n := by
  by_cases hk : k.isFuncScope <;>
    simp [SymbolTable.define, hk, dget_dput_ne _ _ _ _ h]

theorem define_class_table_func (t : SymbolTable) (m ty : String)
    (k : Kind) (hk : k.isFuncScope) :
    (t.define m ty k).class_table = t.class_table := by
  simp [SymbolTable.define, hk]

theorem define_var_count_fresh (t : SymbolTable) (m ty : String) (k : Kind)
    (h : dget (t.tableForKind k) m = none) :
    (t.define m ty k).var_count k = t.var_count k + 1 := by
  by_cases hk : k.isFuncScope
  · simp only [SymbolTable.tableForKind, hk, if_true] at h
    simp only [SymbolTable.define, SymbolTable.var_count,
      SymbolTable.tableForKind, hk, if_true, dput_fresh _ _ _ h]
    simp [List.countP_append, List.countP_cons]
  · simp only [SymbolTable.tableForKind, hk, if_false,
      Bool.false_eq_true] at h
    simp only [SymbolTable.define, SymbolTable.var_count,
      SymbolTable.tableForKind, hk, if_false, Bool.false_eq_true,
      dput_fresh _ _ _ h]
    simp [List.countP_append, List.countP_cons]

theorem define_var_count_ne (t : SymbolTable) (m ty : String)
    (k k' : Kind) (hne : k' ≠ k) (h : dget (t.tableForKind k) m = none) :
    (t.define m ty k).var_count k' = t.var_count k' := by
  have hke : ¬(k = k') := fun hh => hne hh.symm
  by_cases hk : k.isFuncScope
  · simp only [SymbolTable.tableForKind, hk, if_true] at h
    simp only [SymbolTable.define, SymbolTable.var_count,
      SymbolTable.tableForKind, hk, if_true, dput_fresh _ _ _ h]
    by_cases hk' : k'.isFuncScope <;>
      simp [hk', List.countP_append, List.countP_cons, hke]
  · simp only [SymbolTable.tableForKind, hk, if_false,
      Bool.false_eq_true] at h
    simp only [SymbolTable.define, SymbolTable.var_count,
      SymbolTable.tableForKind, hk, if_false, Bool.false_eq_true,
      dput_fresh _ _ _ h]
    by_cases hk' : k'.isFuncScope <;>
      simp [hk', List.countP_append, List.countP_cons, hke]

theorem define_indicesOf_fresh (t : SymbolTable) (m ty : String)
    (k : Kind) (h : dget (t.tableForKind k) m = none) :
    indicesOf (t.define m ty k) k = indicesOf t k ++ [t.var_count k] := by
  by_cases hk : k.isFuncScope
  · simp only [SymbolTable.tableForKind, hk, if_true] at h
    simp only [SymbolTable.define, indicesOf, SymbolTable.tableForKind,
      hk, if_true, dput_fresh _ _ _ h]
    simp [List.filter_append]
  · simp only [SymbolTable.tableForKind, hk, if_false,
      Bool.false_eq_true] at h
    simp only [SymbolTable.define, indicesOf, SymbolTable.tableForKind,
      hk, if_false, Bool.false_eq_true, dput_fresh _ _ _ h]
    simp [List.filter_append]

theorem define_indicesOf_ne (t : SymbolTable) (m ty : String)
    (k k' : Kind) (hne : k' ≠ k) (h : dget (t.tableForKind k) m = none) :
    indicesOf (t.define m ty k) k' = indicesOf t k' := by
  have hke : ¬(k = k') := fun hh => hne hh.symm
  by_cases hk : k.isFuncScope
  · simp only [SymbolTable.tableForKind, hk, if_true] at h
    simp only [SymbolTable.define, indicesOf, SymbolTable.tableForKind,
      hk, if_true, dput_fresh _ _ _ h]
    by_cases hk' : k'.isFuncScope <;>
      simp [hk', List.filter_append, hke]
  · simp only [SymbolTable.tableForKind, hk, if_false,
      Bool.false_eq_true] at h
    simp only [SymbolTable.define, indicesOf, SymbolTable.tableForKind,
      hk, if_false, Bool.false_eq_true, dput_fresh _ _ _ h]
    by_cases hk' : k'.isFuncScope <;>
      simp [hk', List.filter_append, hke]

theorem defineFold_dget_preserve {β : Type} (nm tp : β → String)
    (kd : β → Kind) (l : List β) (t : SymbolTable) (n : String)
    (h : ∀ b ∈ l, nm b ≠ n) :
    dget (defineFold nm tp kd t l).class_table n = dget t.class_table n ∧
    dget (defineFold nm tp kd t l).func_table n = dget t.func_table n := by
  induction l generalizing t with
  | nil => exact ⟨rfl, rfl⟩
  | cons b rest ih =>
      have hb : n ≠ nm b := fun hh => h b (by simp) hh.symm
      have hrest : ∀ b' ∈ rest, nm b' ≠ n := fun b' hb' => h b' (by simp [hb'])
      have h1 := define_dget_ne t (nm b) (tp b) n (kd b) hb
      have h2 := ih (t.define (nm b) (tp b) (kd b)) hrest
      exact ⟨h2.1.trans h1.1, h2.2.trans h1.2⟩

theorem defineFold_class_table {β : Type} (nm tp : β → String)
    (kd : β → Kind) (l : List β) (t : SymbolTable)
    (h : ∀ b ∈ l, (kd b).isFuncScope) :
    (defineFold nm tp kd t l).class_table = t.class_table := by
  induction l generalizing t with
  | nil => rfl
  | cons b rest ih =>
      have hb := h b (by simp)
      have hrest : ∀ b' ∈ rest, (kd b').isFuncScope :=
        fun b' hb' => h b' (by simp [hb'])
      exact (ih _ hrest).trans (define_class_table_func t _ _ _ hb)

theorem defineFold_counts {β : Type} (nm tp : β → String) (kd : β → Kind)
    (l : List β) (t : SymbolTable)
    (hnd : (l.map nm).Nodup)
    (hfresh : ∀ b ∈ l, dget t.class_table (nm b) = none ∧
              dget t.func_table (nm b) = none)
    (k : Kind) :
    (defineFold nm tp kd t l).var_count k =
      t.var_count k + (l.filter (fun b => kd b = k)).length ∧
    indicesOf (defineFold nm tp kd t l) k =
      indicesOf t k ++
        List.range' (t.var_count k) (l.filter (fun b => kd b = k)).length := by
  induction l generalizing t with
  | nil => simp [defineFold]
  | cons b rest ih =>
      have hfb : dget (t.tableForKind (kd b)) (nm b) = none := by
        rcases hfresh b (by simp) with ⟨h1, h2⟩
        by_cases hk : (kd b).isFuncScope <;>
          simp [SymbolTable.tableForKind, hk, h1, h2]
      have hnd' : (rest.map nm).Nodup := by
        simpa using hnd.of_cons
      have hbm : nm b ∉ rest.map nm := by
        simp only [List.map_cons, List.nodup_cons] at hnd
        exact hnd.1
      have hfresh' : ∀ b' ∈ rest,
          dget (t.define (nm b) (tp b) (kd b)).class_table (nm b') = none ∧
          dget (t.define (nm b) (tp b) (kd b)).func_table (nm b') = none := by
        intro b' hb'
        have hne : nm b' ≠ nm b := by
          intro hh
          exact hbm (hh ▸ List.mem_map_of_mem nm hb')
        have hd := define_dget_ne t (nm b) (tp b) (nm b') (kd b) hne
        rcases hfresh b' (by simp [hb']) with ⟨h1, h2⟩
        exact ⟨hd.1.trans h1, hd.2.trans h2⟩
      have hih := ih (t.define (nm b) (tp b) (kd b)) hnd' hfresh'
      by_cases hkb : kd b = k
      · subst hkb
        have hv := define_var_count_fresh t (nm b) (tp b) (kd b) hfb
        have hi := define_indicesOf_fresh t (nm b) (tp b) (kd b) hfb
        refine ⟨?_, ?_⟩
        · simp only [defineFold, List.foldl_cons] at hih ⊢
          rw [hih.1, hv]
          simp [List.filter_cons]
          omega
        · simp only [defineFold, List.foldl_cons] at hih ⊢
          rw [hih.2, hv, hi]
          simp [List.filter_cons, List.append_assoc, List.range'_succ]
      · have hv := define_var_count_ne t (nm b) (tp b) (kd b) k
          (fun hh => hkb hh.symm) hfb
        have hi := define_indicesOf_ne t (nm b) (tp b) (kd b) k
          (fun hh => hkb hh.symm) hfb
        refine ⟨?_, ?_⟩
        · simp only [defineFold, List.foldl_cons] at hih ⊢
          rw [hih.1, hv]
          simp [List.filter_cons, hkb]
        · simp only [defineFold, List.foldl_cons] at hih ⊢
          rw [hih.2, hv, hi]
          simp [List.filter_cons, hkb]

theorem defineFold_get_const {β : Type} (nm tp : β → String) (k0 : Kind)
    (l : List β) (t : SymbolTable)
    (hnd : (l.map nm).Nodup)
    (hfresh : ∀ b ∈ l, dget (t.tableForKind k0) (nm b) = none)
    (i : Nat) (hi : i < l.length) :
    dget ((defineFold nm tp (fun _ => k0) t l).tableForKind k0)
        (nm (l.get ⟨i, hi⟩)) =
      some ⟨nm (l.get ⟨i, hi⟩), tp (l.get ⟨i, hi⟩), k0,
        t.var_count k0 + i⟩ := by
  induction l generalizing t i with
  | nil => exact absurd hi (by simp)
  | cons b rest ih =>
      have hfb : dget (t.tableForKind k0) (nm b) = none := hfresh b (by simp)
      have hnd' : (rest.map nm).Nodup := by simpa using hnd.of_cons
      have hbm : nm b ∉ rest.map nm := by
        simp only [List.map_cons, List.nodup_cons] at hnd
        exact hnd.1
      have hfresh' : ∀ b' ∈ rest,
          dget ((t.define (nm b) (tp b) k0).tableForKind k0) (nm b') =
            none := by
        intro b' hb'
        have hne : nm b' ≠ nm b := by
          intro hh
          exact hbm (hh ▸ List.mem_map_of_mem nm hb')
        have hd := define_dget_ne t (nm b) (tp b) (nm b') k0 hne
        have h1 := hfresh b' (by simp [hb'])
        by_cases hk : k0.isFuncScope <;>
          simp only [SymbolTable.tableForKind, hk, if_true, if_false,
            Bool.false_eq_true] at h1 ⊢ <;>
          [exact hd.2.trans h1; exact hd.1.trans h1]
      match i with
      | 0 =>
          -- the head's binding is created by the first define and preserved
          -- by the rest of the fold, whose names all differ from it.
          have hpres := defineFold_dget_preserve nm tp (fun _ => k0) rest
            (t.define (nm b) (tp b) k0) (nm b)
            (fun b' hb' => fun hh => hbm (hh ▸ List.mem_map_of_mem nm hb'))
          have hself := define_dget_self t (nm b) (tp b) k0
          simp only [defineFold, List.foldl_cons, List.get] at *
          by_cases hk : k0.isFuncScope
          · simp only [SymbolTable.tableForKind, hk, if_true] at hself ⊢
            rw [hpres.2, hself]
            simp
          · simp only [SymbolTable.tableForKind, hk, if_false,
              Bool.false_eq_true] at hself ⊢
            rw [hpres.1, hself]
            simp
      | i + 1 =>
          have hih := ih (t.define (nm b) (tp b) k0) hnd' hfresh' i
            (by simpa using Nat.lt_of_succ_lt_succ hi)
          have hv := define_var_count_fresh t (nm b) (tp b) k0 hfb
          simp only [defineFold, List.foldl_cons, List.get] at hih ⊢
          rw [hih, hv]
          have harith : t.var_count k0 + 1 + i = t.var_count k0 + (i + 1) :=
            by omega
          rw [harith]

/-- C7: the claim says `countOf(storageClass)` equals the number of
`define` calls with that storage class and the indices are exactly
`0..countOf-1`.  That fails as soon as two `define` calls share a name:
after `define("x", Var)` twice, only one `Var` symbol exists
(`var_count = 1`, not 2, although two `define` calls with `Var` were made)
and its index is 1, so the index list `[1]` has a gap at 0 and is not
`0..countOf-1` (`symbol_table.py:66-70` overwrites and re-derives the
index from the current count). -/
theorem c7_counterexample :
    (declsTable [⟨"x", "int", Kind.Var⟩,
        ⟨"x", "int", Kind.Var⟩]).var_count Kind.Var ≠ 2 ∧
    (declsTable [⟨"x", "int", Kind.Var⟩,
        ⟨"x", "int", Kind.Var⟩]).var_count Kind.Var = 1 ∧
    indicesOf (declsTable [⟨"x", "int", Kind.Var⟩,
        ⟨"x", "int", Kind.Var⟩]) Kind.Var = [1] ∧
    indicesOf (declsTable [⟨"x", "int", Kind.Var⟩,
        ⟨"x", "int", Kind.Var⟩]) Kind.Var ≠
      List.range ((declsTable [⟨"x", "int", Kind.Var⟩,
        ⟨"x", "int", Kind.Var⟩]).var_count Kind.Var) := by
  refine ⟨by decide, by decide, by decide, by decide⟩

/-- C7 (amended): for every sequence of `define` calls against a fresh
table whose names are pairwise distinct, `var_count(storageClass)` equals
the number of `define` calls with that storage class, and the indices
assigned to that storage class's symbols are exactly `0..count-1`, in
order, with no gaps or repeats. -/
theorem c7_theorem (ds : List ClassVariableDeclaration) (k : Kind)
    (hnd : (ds.map ClassVariableDeclaration.name).Nodup) :
    (declsTable ds).var_count k =
      (ds.filter (fun d => d.kind = k)).length ∧
    indicesOf (declsTable ds) k =
      List.range ((ds.filter (fun d => d.kind = k)).length) := by
  have heq : declsTable ds =
      defineFold ClassVariableDeclaration.name ClassVariableDeclaration.type
        ClassVariableDeclaration.kind SymbolTable.empty ds := rfl
  have h := defineFold_counts ClassVariableDeclaration.name
    ClassVariableDeclaration.type ClassVariableDeclaration.kind ds
    SymbolTable.empty hnd (by intro b _; exact ⟨rfl, rfl⟩) k
  have hvc0 : SymbolTable.empty.var_count k = 0 := by
    simp [SymbolTable.var_count, SymbolTable.empty, SymbolTable.tableForKind]
  have hio0 : indicesOf SymbolTable.empty k = [] := by
    simp [indicesOf, SymbolTable.empty, SymbolTable.tableForKind]
  constructor
  · rw [heq, h.1, hvc0]
    omega
  · rw [heq, h.2, hvc0, hio0, List.range_eq_range']
    simp

/-- Witness for `c7_theorem`: one `Static` and two `Field` definitions with
distinct names give `var_count(Field) = 2` with indices `[0, 1]`. -/
theorem c7_witness :
    (declsTable [⟨"a", "int", Kind.Static⟩, ⟨"x", "int", Kind.Field⟩,
        ⟨"y", "int", Kind.Field⟩]).var_count Kind.Field =
      ([⟨"a", "int", Kind.Static⟩, ⟨"x", "int", Kind.Field⟩,
        (⟨"y", "int", Kind.Field⟩ : ClassVariableDeclaration)].filter
          (fun d => d.kind = Kind.Field)).length ∧
    indicesOf (declsTable [⟨"a", "int", Kind.Static⟩,
        ⟨"x", "int", Kind.Field⟩, ⟨"y", "int", Kind.Field⟩]) Kind.Field =
      List.range (([⟨"a", "int", Kind.Static⟩, ⟨"x", "int", Kind.Field⟩,
        (⟨"y", "int", Kind.Field⟩ : ClassVariableDeclaration)].filter
          (fun d => d.kind = Kind.Field)).length) :=
  c7_theorem [⟨"a", "int", Kind.Static⟩, ⟨"x", "int", Kind.Field⟩,
    ⟨"y", "int", Kind.Field⟩] Kind.Field (by decide)

theorem symbolPhase_eq (cn : String) (st : SymbolTable) (sub : Subroutine) :
    symbolPhase cn st sub =
      defineFold SubroutineVariableDeclaration.name
        SubroutineVariableDeclaration.type SubroutineVariableDeclaration.kind
        (defineFold SubroutineArgument.name SubroutineArgument.type
          (fun _ => Kind.Arg)
          (if sub.subroutine_type = SubroutineType.Method then
            (st.start_subroutine).define "this" cn Kind.Arg
          else st.start_subroutine)
          sub.arguments)
        sub.body.variable_declarations := rfl

/-- C6: (1) a call with no receiver prefix compiles to a push of the
current receiver (`pointer 0`) followed by the argument expressions and a
`call` whose argument count is the declared count plus one; (2) a call
whose prefix resolves in the symbol table compiles to a push of that
symbol followed by the arguments and a `call` with declared count plus
one; (3) when a `Method`'s own symbol table is set up
(`jack_compiler.py:42-54`), the synthetic receiver `this` occupies `Arg`
index 0 and every declared parameter (with well-formed, pairwise-distinct
names not shadowed by a local) resolves to `Arg` index `i + 1 ≥ 1`. -/
theorem c6_theorem :
    (∀ (cn nm : String) (st : SymbolTable) (args : List Expression)
        (out : List Instr),
      compileSubroutineCall cn st (.mk none nm args) = some out →
      ∃ argsCode, compileExpressionList cn st args = some argsCode ∧
        out = .push .Pointer 0 :: argsCode ++
          [.call (cn ++ "." ++ nm) (args.length + 1)]) ∧
    (∀ (cn p nm : String) (st : SymbolTable) (args : List Expression)
        (sym : Symbol) (out : List Instr),
      st.getItem p = some sym →
      compileSubroutineCall cn st (.mk (some p) nm args) = some out →
      ∃ sym2 argsCode, st.getItem sym.name = some sym2 ∧
        compileExpressionList cn st args = some argsCode ∧
        out = writePushSymbol sym2 ++ argsCode ++
          [.call (sym.type ++ "." ++ nm) (args.length + 1)]) ∧
    (∀ (cn : String) (st : SymbolTable) (sub : Subroutine),
      sub.subroutine_type = SubroutineType.Method →
      (sub.arguments.map SubroutineArgument.name).Nodup →
      (∀ a ∈ sub.arguments, a.name ≠ "this") →
      (∀ v ∈ sub.body.variable_declarations,
        v.name ≠ "this" ∧ ∀ a ∈ sub.arguments, v.name ≠ a.name) →
      (symbolPhase cn st sub).getItem "this" =
        some ⟨"this", cn, Kind.Arg, 0⟩ ∧
      ∀ i (hi : i < sub.arguments.length),
        (symbolPhase cn st sub).getItem
            ((sub.arguments.get ⟨i, hi⟩).name) =
          some ⟨(sub.arguments.get ⟨i, hi⟩).name,
            (sub.arguments.get ⟨i, hi⟩).type, Kind.Arg, i + 1⟩) := by
  refine ⟨?_, ?_, ?_⟩
  · intro cn nm st args out h
    simp only [compileSubroutineCall] at h
    cases hargs : compileExpressionList cn st args with
    | none => simp only [hargs] at h; exact Option.noConfusion h
    | some a =>
        simp only [hargs, Option.some.injEq] at h
        exact ⟨a, rfl, h.symm⟩
  · intro cn p nm st args sym out hp h
    simp only [compileSubroutineCall, hp] at h
    cases h2 : st.getItem sym.name with
    | none => simp only [h2] at h; exact Option.noConfusion h
    | some sym2 =>
        simp only [h2] at h
        cases hargs : compileExpressionList cn st args with
        | none => simp only [hargs] at h; exact Option.noConfusion h
        | some a =>
            simp only [hargs, Option.some.injEq] at h
            exact ⟨sym2, a, rfl, rfl, h.symm⟩
  · intro cn st sub hm hnd hnthis hvars
    -- the table right after the synthetic receiver is defined: the
    -- subroutine scope holds exactly this@Arg0.
    have hst2 : ((st.start_subroutine).define "this" cn
        Kind.Arg).func_table = [("this", ⟨"this", cn, Kind.Arg, 0⟩)] := by
      simp [SymbolTable.start_subroutine, SymbolTable.define,
        SymbolTable.var_count, SymbolTable.tableForKind, dput,
        Kind.isFuncScope]
    have hvc2 : ((st.start_subroutine).define "this" cn
        Kind.Arg).var_count Kind.Arg = 1 := by
      simp [SymbolTable.var_count, SymbolTable.tableForKind, hst2,
        Kind.isFuncScope]
    have hAfresh : ∀ a ∈ sub.arguments,
        dget (((st.start_subroutine).define "this" cn
          Kind.Arg).tableForKind Kind.Arg) a.name = none := by
      intro a ha
      have hne := Ne.symm (hnthis a ha)
      simp [SymbolTable.tableForKind, hst2, dget, hne, Kind.isFuncScope]
    -- parameter i is bound at Arg index 1 + i after the argument fold
    have hargs := fun i hi => defineFold_get_const SubroutineArgument.name
      SubroutineArgument.type Kind.Arg sub.arguments
      ((st.start_subroutine).define "this" cn Kind.Arg) hnd hAfresh i hi
    -- and the receiver's binding survives the argument fold
    have hthis1 := defineFold_dget_preserve SubroutineArgument.name
      SubroutineArgument.type (fun _ => Kind.Arg) sub.arguments
      ((st.start_subroutine).define "this" cn Kind.Arg) "this"
      (fun a ha => hnthis a ha)
    -- both survive the local-variable fold
    have hthis2 := defineFold_dget_preserve
      SubroutineVariableDeclaration.name SubroutineVariableDeclaration.type
      SubroutineVariableDeclaration.kind sub.body.variable_declarations
      (defineFold SubroutineArgument.name SubroutineArgument.type
        (fun _ => Kind.Arg)
        ((st.start_subroutine).define "this" cn Kind.Arg) sub.arguments)
      "this" (fun v hv => (hvars v hv).1)
    constructor
    · rw [symbolPhase_eq, hm]
      simp only [reduceIte]
      simp only [SymbolTable.getItem]
      rw [hthis2.2, hthis1.2, hst2]
      simp [dget]
    · intro i hi
      have hargi := hargs i hi
      have hmem : sub.arguments.get ⟨i, hi⟩ ∈ sub.arguments :=
        List.get_mem _ _ hi
      have hpres := defineFold_dget_preserve
        SubroutineVariableDeclaration.name
        SubroutineVariableDeclaration.type
        SubroutineVariableDeclaration.kind sub.body.variable_declarations
        (defineFold SubroutineArgument.name SubroutineArgument.type
          (fun _ => Kind.Arg)
          ((st.start_subroutine).define "this" cn Kind.Arg) sub.arguments)
        ((sub.arguments.get ⟨i, hi⟩).name)
        (fun v hv => (hvars v hv).2 _ hmem)
      rw [symbolPhase_eq, hm]
      simp only [reduceIte]
      simp only [SymbolTable.getItem]
      rw [hpres.2]
      simp only [SymbolTable.tableForKind, show Kind.isFuncScope .Arg = true
        from rfl, if_true] at hargi
      rw [hargi, hvc2]
      simp [Nat.add_comm]

/-- Witness for `c6_theorem`: clause (1) applied to the local call
`draw()` with one integer argument - the receiver is pushed first and the
`call` carries argument count 2. -/
theorem c6_witness :
    ∃ argsCode, compileExpressionList "Main" SymbolTable.empty
        [Expression.mk [Sum.inr (.IntegerConstant 7)]] = some argsCode ∧
      ([Instr.push .Pointer 0, .push .Const 7, .call "Main.draw" 2]
        : List Instr) = .push .Pointer 0 :: argsCode ++
          [.call ("Main" ++ "." ++ "draw") (1 + 1)] :=
  c6_theorem.1 "Main" "draw" SymbolTable.empty
    [Expression.mk [Sum.inr (.IntegerConstant 7)]]
    [Instr.push .Pointer 0, .push .Const 7, .call "Main.draw" 2]
    (by decide)

theorem tableForKind_classScope (t : SymbolTable) (k : Kind)
    (hk : k.isFuncScope = false) : t.tableForKind k = t.class_table := by
  simp [SymbolTable.tableForKind, hk]

theorem var_count_class_congr (t1 t2 : SymbolTable) (k : Kind)
    (hk : k.isFuncScope = false) (h : t1.class_table = t2.class_table) :
    t1.var_count k = t2.var_count k := by
  simp [SymbolTable.var_count, SymbolTable.tableForKind, hk, h]

theorem symbolPhase_class_table (cn : String) (st : SymbolTable)
    (sub : Subroutine)
    (hv : ∀ v ∈ sub.body.variable_declarations, (v.kind).isFuncScope) :
    (symbolPhase cn st sub).class_table = st.class_table := by
  rw [symbolPhase_eq]
  rw [defineFold_class_table _ _ _ _ _ hv]
  rw [defineFold_class_table SubroutineArgument.name SubroutineArgument.type
    (fun _ => Kind.Arg) sub.arguments _ (fun b _ => rfl)]
  by_cases hm : sub.subroutine_type = SubroutineType.Method
  · rw [if_pos hm, define_class_table_func _ _ _ _ (by decide)]
    rfl
  · rw [if_neg hm]
    rfl

/-- C10: a second constructor in the same class redefines `this` in the
class scope with a bumped index.  On a zero-field class with two
constructors, after `compile_class` finishes, `this` sits at `Field`
index 1, not at the declared field count 0: the first constructor's
`define` put it at index 0, the second constructor's `define`
(`jack_compiler.py:83-85`) recomputed `index = var_count(Field) = 1` and
overwrote the entry, so the claimed index equality does not persist. -/
theorem c10_counterexample :
    (compileClass ⟨"C", [],
      [⟨SubroutineType.Constructor, "C", "new1", [], some "C",
        ⟨[], [.ReturnStatement
          (some (.mk [Sum.inr (.KeywordConstant "this")]))]⟩⟩,
       ⟨SubroutineType.Constructor, "C", "new2", [], some "C",
        ⟨[], [.ReturnStatement
          (some (.mk [Sum.inr (.KeywordConstant "this")]))]⟩⟩]⟩).map
      (fun p => dget p.2.class_table "this") =
      some (some ⟨"this", "C", Kind.Field, 1⟩) ∧
    Class.class_size_in_words ⟨"C", [],
      [⟨SubroutineType.Constructor, "C", "new1", [], some "C",
        ⟨[], [.ReturnStatement
          (some (.mk [Sum.inr (.KeywordConstant "this")]))]⟩⟩,
       ⟨SubroutineType.Constructor, "C", "new2", [], some "C",
        ⟨[], [.ReturnStatement
          (some (.mk [Sum.inr (.KeywordConstant "this")]))]⟩⟩]⟩ = 0 ∧
    (1 : Nat) ≠ 0 := by
  refine ⟨by decide, by decide, by decide⟩

/-- C10 (amended): (1) compiling a `Constructor` against a class scope not
yet holding `this` adds `this` to the class scope as a `Field` whose index
is the current `Field` count (which, right after the declaration pass of a
class with pairwise-distinct declaration names, is the declared field
count), and raises `var_count(Field)` by one; (2) compiling any
non-`Constructor` subroutine leaves the class scope untouched (so the
entry persists, `start_subroutine` clearing only the subroutine scope);
(3) the declaration pass of a class with pairwise-distinct names, none of
them `this`, leaves no `this` in the class scope and `var_count(Field)`
equal to the declared field count.  A later constructor redefines `this`
at a bumped index (see the counterexample), which is the one divergence
from the claim. -/
theorem c10_theorem :
    (∀ (clazz : Class) (st : SymbolTable) (sub : Subroutine)
        (code : List Instr) (t' : SymbolTable),
      sub.subroutine_type = SubroutineType.Constructor →
      compileSubroutine clazz st sub = some (code, t') →
      dget st.class_table "this" = none →
      dget t'.class_table "this" =
        some ⟨"this", clazz.class_name, Kind.Field,
          st.var_count Kind.Field⟩ ∧
      t'.var_count Kind.Field = st.var_count Kind.Field + 1) ∧
    (∀ (clazz : Class) (st : SymbolTable) (sub : Subroutine)
        (code : List Instr) (t' : SymbolTable),
      sub.subroutine_type ≠ SubroutineType.Constructor →
      compileSubroutine clazz st sub = some (code, t') →
      t'.class_table = st.class_table) ∧
    (∀ (decls : List ClassVariableDeclaration),
      (decls.map ClassVariableDeclaration.name).Nodup →
      (∀ d ∈ decls, d.name ≠ "this") →
      dget (declsTable decls).class_table "this" = none ∧
      (declsTable decls).var_count Kind.Field =
        (decls.filter (fun d => d.kind = Kind.Field)).length) := by
  refine ⟨?_, ?_, ?_⟩
  · intro clazz st sub code t' htype hcomp hthis
    rw [compileSubroutine, htype] at hcomp
    simp only [reduceIte] at hcomp
    cases hall : sub.body.variable_declarations.all
        (fun v => v.kind = Kind.Var) with
    | false => rw [hall] at hcomp; simp at hcomp
    | true =>
        rw [hall] at hcomp
        simp only [if_true] at hcomp
        cases hbody : compileStatements clazz.class_name
            ((symbolPhase clazz.class_name st sub).define "this"
              clazz.class_name Kind.Field) [] sub.body.statements with
        | none => rw [hbody] at hcomp; exact Option.noConfusion hcomp
        | some p =>
            rw [hbody] at hcomp
            simp only [Option.some.injEq, Prod.mk.injEq] at hcomp
            obtain ⟨-, ht⟩ := hcomp
            subst ht
            have hvv : ∀ v ∈ sub.body.variable_declarations,
                (v.kind).isFuncScope := by
              intro v hv
              have := List.all_eq_true.mp hall v hv
              simp only [decide_eq_true_eq] at this
              rw [this]; rfl
            have hcls := symbolPhase_class_table clazz.class_name st sub hvv
            have hfresh : dget ((symbolPhase clazz.class_name st
                sub).tableForKind Kind.Field) "this" = none := by
              rw [tableForKind_classScope
                (symbolPhase clazz.class_name st sub) Kind.Field rfl, hcls]
              exact hthis
            have hvc := var_count_class_congr
              (symbolPhase clazz.class_name st sub) st Kind.Field rfl hcls
            constructor
            · have hself := define_dget_self
                (symbolPhase clazz.class_name st sub) "this"
                clazz.class_name Kind.Field
              rw [tableForKind_classScope
                ((symbolPhase clazz.class_name st sub).define "this"
                  clazz.class_name Kind.Field) Kind.Field rfl] at hself
              rw [hself, hvc]
            · rw [define_var_count_fresh _ _ _ _ hfresh, hvc]
  · intro clazz st sub code t' htype hcomp
    rw [compileSubroutine] at hcomp
    simp only [if_neg htype] at hcomp
    cases hall : sub.body.variable_declarations.all
        (fun v => v.kind = Kind.Var) with
    | false => rw [hall] at hcomp; simp at hcomp
    | true =>
        rw [hall] at hcomp
        simp only [if_true] at hcomp
        cases hbody : compileStatements clazz.class_name
            (symbolPhase clazz.class_name st sub) []
            sub.body.statements with
        | none => rw [hbody] at hcomp; exact Option.noConfusion hcomp
        | some p =>
            rw [hbody] at hcomp
            simp only [Option.some.injEq, Prod.mk.injEq] at hcomp
            obtain ⟨-, ht⟩ := hcomp
            subst ht
            have hvv : ∀ v ∈ sub.body.variable_declarations,
                (v.kind).isFuncScope := by
              intro v hv
              have := List.all_eq_true.mp hall v hv
              simp only [decide_eq_true_eq] at this
              rw [this]; rfl
            exact symbolPhase_class_table clazz.class_name st sub hvv
  · intro decls hnd hthis
    constructor
    · have h := defineFold_dget_preserve ClassVariableDeclaration.name
        ClassVariableDeclaration.type ClassVariableDeclaration.kind decls
        SymbolTable.empty "this" (fun d hd => hthis d hd)
      exact h.1
    · have h := defineFold_counts ClassVariableDeclaration.name
        ClassVariableDeclaration.type ClassVariableDeclaration.kind decls
        SymbolTable.empty hnd (by intro b _; exact ⟨rfl, rfl⟩) Kind.Field
      have h0 : SymbolTable.empty.var_count Kind.Field = 0 := rfl
      rw [show declsTable decls = defineFold ClassVariableDeclaration.name
        ClassVariableDeclaration.type ClassVariableDeclaration.kind
        SymbolTable.empty decls from rfl, h.1, h0]
      omega

/-- Witness for `c10_theorem`: clause (1) at the `Point` constructor - the
class scope gains `this` at `Field` index 2 (the field count) and the
`Field` count becomes 3. -/
theorem c10_witness :
    dget ((compileSubroutine
      ⟨"Point", [⟨"x", "int", Kind.Field⟩, ⟨"y", "int", Kind.Field⟩], []⟩
      (declsTable [⟨"x", "int", Kind.Field⟩, ⟨"y", "int", Kind.Field⟩])
      ⟨SubroutineType.Constructor, "Point", "new", [], none,
        ⟨[], [.ReturnStatement none]⟩⟩).map Prod.snd |>.getD
          SymbolTable.empty).class_table "this" =
      some ⟨"this", "Point", Kind.Field,
        (declsTable [⟨"x", "int", Kind.Field⟩,
          ⟨"y", "int", Kind.Field⟩]).var_count Kind.Field⟩ := by
  have h := (c10_theorem.1
    ⟨"Point", [⟨"x", "int", Kind.Field⟩, ⟨"y", "int", Kind.Field⟩], []⟩
    (declsTable [⟨"x", "int", Kind.Field⟩, ⟨"y", "int", Kind.Field⟩])
    ⟨SubroutineType.Constructor, "Point", "new", [], none,
      ⟨[], [.ReturnStatement none]⟩⟩
    [.function "Point.new" 0, .push .Const 2, .call "Memory.alloc" 1,
     .pop .Pointer 0, .push .Const 0, .ret]
    ⟨[("x", ⟨"x", "int", Kind.Field, 0⟩),
      ("y", ⟨"y", "int", Kind.Field, 1⟩),
      ("this", ⟨"this", "Point", Kind.Field, 2⟩)], []⟩
    rfl (by decide) (by decide)).1
  simpa using h

end Jack
